import Mathlib

/-!
Shallow embedding of the task-coordination layer of the web-scraper-agent
repository: the SQLite task store (src/db_new.py), the stuck-lease sweep
(src/multi_worker.py), the sequential job aggregator and approval gate
(src/api_server.py), the Redis job aggregator (src/redis_manager.py), the
worker step (src/worker_new.py) and domain normalization (src/api_server.py).

Modelling conventions:
- SQL timestamps become Nat; every operation that writes CURRENT_TIMESTAMP
  takes the current time as an explicit argument.
- The raw_scrapes table is a list of rows; the PRIMARY KEY constraint on
  domain is carried as a Nodup hypothesis where a theorem needs it.
- Database transactions (BEGIN IMMEDIATE in claim_pending_raw) serialize
  conflicting writers, so a transaction is modelled as one atomic step and
  concurrent histories as sequential compositions of such steps.
- Python dicts keyed by strings become association lists, with dict
  assignment, lookup and pop modelled by dictInsert / dictLookup / dictPop.
- The opaque extracted payload is modelled as a String.
- Exceptions raised by the opaque fetch/extract/persist collaborators are
  modelled by explicit alternatives (ExtractResult, an Option String persist
  outcome); a caught exception corresponds to consuming that alternative.
-/

namespace Scraper

/-- Row of the raw_scrapes table (db_new.py, init_db): the task record. The
source stores the coordination status in the status column using the strings
READY (the spec's PENDING), PROCESSING (the spec's CLAIMED), DONE and
FAILED. -/
structure RawScrape where
  domain : String
  snapshot_path : String
  clean_text : String
  tech_stack : String
  status : String
  created_at : Nat
  updated_at : Nat
deriving DecidableEq, Repr

/-- The raw_scrapes table, one row per task. -/
abbrev Store := List RawScrape

/-- Well-formedness of the table: the PRIMARY KEY constraint on domain. -/
def storeKeysNodup (s : Store) : Prop :=
  (s.map RawScrape.domain).Nodup

instance (s : Store) : Decidable (storeKeysNodup s) := by
  unfold storeKeysNodup
  infer_instance

/-- Status of the row keyed by a domain, read off the first matching row
(with storeKeysNodup there is at most one). -/
def statusOf (s : Store) (d : String) : Option String :=
  (s.find? (fun r => r.domain == d)).map RawScrape.status

/-- Per-row effect of the ON CONFLICT DO UPDATE clause of upsert_raw_scrape:
a row whose domain matches has its four payload columns and updated_at
replaced (created_at is kept); any other row is untouched. -/
def upsertFn (domain snapshot_path clean_text tech_stack_json status : String)
    (now : Nat) (r : RawScrape) : RawScrape :=
  if r.domain == domain then
    { r with snapshot_path := snapshot_path, clean_text := clean_text,
             tech_stack := tech_stack_json, status := status, updated_at := now }
  else r

/-- The fresh row inserted by upsert_raw_scrape for an absent key: both
timestamp columns take their CURRENT_TIMESTAMP defaults. -/
def freshRow (domain snapshot_path clean_text tech_stack_json status : String)
    (now : Nat) : RawScrape :=
  { domain := domain, snapshot_path := snapshot_path, clean_text := clean_text,
    tech_stack := tech_stack_json, status := status,
    created_at := now, updated_at := now }

/-- upsert_raw_scrape (db_new.py lines 126-146): INSERT the row, and ON
CONFLICT(domain) DO UPDATE SET the four payload columns plus updated_at to
the new values (created_at is kept on conflict). -/
def upsert_raw_scrape (domain snapshot_path clean_text tech_stack_json status : String)
    (now : Nat) (s : Store) : Store :=
  if s.any (fun r => r.domain == domain) then
    s.map (upsertFn domain snapshot_path clean_text tech_stack_json status now)
  else
    s ++ [freshRow domain snapshot_path clean_text tech_stack_json status now]

/-- Per-row effect of the UPDATE of update_raw_status. -/
def updateFn (domain status : String) (now : Nat) (r : RawScrape) : RawScrape :=
  if r.domain == domain then { r with status := status, updated_at := now } else r

/-- update_raw_status (db_new.py lines 161-168): UPDATE the status and
updated_at of every row whose domain matches. -/
def update_raw_status (domain status : String) (now : Nat) (s : Store) : Store :=
  s.map (updateFn domain status now)

/-- Per-row effect of the UPDATE loop of claim_pending_raw: a row whose
domain was selected and which is still READY becomes PROCESSING with a
fresh updated_at. -/
def claimMark (doms : List String) (now : Nat) (r : RawScrape) : RawScrape :=
  if doms.contains r.domain && r.status == "READY" then
    { r with status := "PROCESSING", updated_at := now }
  else r

/-- claim_pending_raw (db_new.py lines 171-207): inside one BEGIN IMMEDIATE
transaction, SELECT up to limit rows with status READY, then UPDATE each
selected row (re-checking status READY) to PROCESSING with a fresh
updated_at, and return the selected rows. The worker_id argument is accepted
but, as in the source, never stored (the table has no owner column). -/
def claim_pending_raw (worker_id : String) (limit : Nat) (now : Nat) (s : Store) :
    List RawScrape × Store :=
  let rows := (s.filter (fun r => r.status == "READY")).take limit
  (rows, s.map (claimMark (rows.map RawScrape.domain) now))

/-- Predicate of the WHERE clause of release_stuck_processing: the row is
PROCESSING and its updated_at is older than the sweep time minus the
timeout. -/
def stuckRow (timeout_seconds now : Nat) (r : RawScrape) : Bool :=
  r.status == "PROCESSING" && decide (r.updated_at < now - timeout_seconds)

/-- Per-row effect of the UPDATE of release_stuck_processing: a stuck row
goes back to READY with a fresh updated_at. -/
def releaseFn (timeout_seconds now : Nat) (r : RawScrape) : RawScrape :=
  if stuckRow timeout_seconds now r then { r with status := "READY", updated_at := now }
  else r

/-- release_stuck_processing (multi_worker.py lines 54-78): UPDATE rows in
PROCESSING whose updated_at is strictly older than now minus the timeout
back to READY with a fresh updated_at, returning the number of rows updated
(cur.rowcount) next to the updated table. -/
def release_stuck_processing (timeout_seconds now : Nat) (s : Store) : Nat × Store :=
  ((s.filter (stuckRow timeout_seconds now)).length,
   s.map (releaseFn timeout_seconds now))

/-! ### Domain normalization (api_server.py, normalize_domains) -/

/-- Whitespace characters of the Python str.split() default separator. -/
def isPySpace (c : Char) : Bool :=
  c == ' ' || c == '\t' || c == '\n' || c == '\r' || c == '\x0b' || c == '\x0c'

/-- Separator characters of entry.replace(",", " ").split(): replacing every
comma by a space and then splitting on whitespace runs is splitting on runs
of whitespace-or-comma. -/
def isSepChar (c : Char) : Bool :=
  isPySpace c || c == ','

/-- Split a character list at every separator, keeping the (possibly empty)
pieces between consecutive separators. -/
def splitCh (p : Char → Bool) : List Char → List (List Char)
  | [] => [[]]
  | c :: cs =>
    let r := splitCh p cs
    if p c then [] :: r
    else
      match r with
      | [] => [[c]]
      | h :: t => (c :: h) :: t

/-- entry.replace(",", " ").split(): tokenize one submitted entry, dropping
the empty pieces as Python str.split() does. -/
def splitTokens (entry : String) : List String :=
  ((splitCh isSepChar entry.data).filter (fun t => !t.isEmpty)).map String.mk

/-- d.lower(): ASCII lowercasing of every character (domain keys are
ASCII). -/
def lowerStr (s : String) : String :=
  String.mk (s.data.map Char.toLower)

/-- Strip a leading scheme exactly as d.split("://", 1)[-1] does for a
string starting with http:// or https:// (the first occurrence of :// is
the one inside the scheme, so exactly the scheme is removed). -/
def stripScheme (d : String) : String :=
  if d.data.take 7 = "http://".data then String.mk (d.data.drop 7)
  else if d.data.take 8 = "https://".data then String.mk (d.data.drop 8)
  else d

/-- d.split("/")[0]: everything up to the first slash. -/
def stripPath (d : String) : String :=
  String.mk (d.data.takeWhile (fun c => c ≠ '/'))

/-- Per-token cleanup of normalize_domains: lowercase, strip an http:// or
https:// scheme, and keep only the part before the first slash. -/
def cleanToken (t : String) : String :=
  stripPath (stripScheme (lowerStr t))

/-- The cleaned token stream of normalize_domains before deduplication:
skip falsy entries, tokenize each entry, clean each token in order. -/
def cleanedTokens (raw_domains : List String) : List String :=
  ((raw_domains.filter (fun e => e ≠ "")).flatMap splitTokens).map cleanToken

/-- The seen-set deduplication loop of normalize_domains: keep the first
occurrence of each string, preserving order. -/
def dedupPreserve (l : List String) : List String :=
  l.foldl (fun acc d => if d ∈ acc then acc else acc ++ [d]) []

/-- normalize_domains (api_server.py lines 78-103). -/
def normalize_domains (raw_domains : List String) : List String :=
  dedupPreserve (cleanedTokens raw_domains)

/-! ### Sequential job aggregator and approval gate (api_server.py) -/

/-- Opaque extracted payload. -/
abbrev ExtractedData := String

/-- Assignment into a Python dict modelled as an association list: overwrite
the entry if the key is present, append it otherwise. -/
def dictInsert (l : List (String × ExtractedData)) (k : String) (v : ExtractedData) :
    List (String × ExtractedData) :=
  if l.any (fun p => p.1 == k) then
    l.map (fun p => if p.1 == k then (k, v) else p)
  else l ++ [(k, v)]

/-- Dict lookup. -/
def dictLookup (l : List (String × ExtractedData)) (k : String) : Option ExtractedData :=
  (l.find? (fun p => p.1 == k)).map Prod.snd

/-- dict.pop(k): remove the entry of the key (the first matching entry; with
unique keys, the only one). -/
def dictPop (l : List (String × ExtractedData)) (k : String) :
    List (String × ExtractedData) :=
  l.eraseP (fun p => p.1 == k)

/-- In-memory job record of the sequential path (the processing_jobs dict
entry created at the top of process_domains_background, api_server.py lines
117-127), restricted to coordination-relevant fields. -/
structure SeqJob where
  status : String
  total : Nat
  completed : Nat
  failed : Nat
  pending_approvals : List (String × ExtractedData)
  approved_data : List (String × ExtractedData)
  rejected_domains : List String
deriving DecidableEq, Repr

/-- Sequential-path world: the job record plus the Persistence Sink, the
latter modelled as the list of (domain, data) pairs successfully written by
save_extracted_data. -/
structure SeqState where
  job : SeqJob
  sink : List (String × ExtractedData)
deriving DecidableEq, Repr

/-- One iteration of the domain loop of process_domains_background
(api_server.py lines 131-156): the outcome of process_domain for one domain
is either some extracted data (queued for approval) or none (the failure
branch, which also covers a raised exception). -/
def processDomainStep (job : SeqJob) (dom : String) (outcome : Option ExtractedData) :
    SeqJob :=
  match outcome with
  | some d => { job with pending_approvals := dictInsert job.pending_approvals dom d }
  | none => { job with failed := job.failed + 1 }

/-- The job record created at the top of process_domains_background
(api_server.py lines 117-127): status processing, counters zero, empty
approval dict. -/
def initJob (total : Nat) : SeqJob :=
  { status := "processing", total := total, completed := 0, failed := 0,
    pending_approvals := [], approved_data := [], rejected_domains := [] }

/-- process_domains_background (api_server.py lines 106-165): initialize the
job record with status processing, run the domain loop, then
unconditionally set status waiting_approval. Each list element pairs a
domain with its extraction outcome. -/
def process_domains_background (outcomes : List (String × Option ExtractedData)) :
    SeqJob :=
  let afterLoop := outcomes.foldl (fun j p => processDomainStep j p.1 p.2)
    (initJob outcomes.length)
  { afterLoop with status := "waiting_approval" }

/-- Initial sequential-path world: the job record produced by
process_domains_background next to an empty Persistence Sink (skip_save
means nothing was persisted during extraction). -/
def initSeqState (outcomes : List (String × Option ExtractedData)) : SeqState :=
  { job := process_domains_background outcomes, sink := [] }

/-- State after the accept branch of accept_extracted when
save_extracted_data succeeds: entry popped, data recorded as approved and
written to the sink, completed incremented. -/
def acceptOkState (dom : String) (data : ExtractedData) (st : SeqState) : SeqState :=
  { job := { st.job with
      pending_approvals := dictPop st.job.pending_approvals dom,
      approved_data := dictInsert st.job.approved_data dom data,
      completed := st.job.completed + 1 },
    sink := st.sink ++ [(dom, data)] }

/-- State after the accept branch of accept_extracted when
save_extracted_data raises: entry popped, failed incremented, nothing
persisted. -/
def acceptFailState (dom : String) (st : SeqState) : SeqState :=
  { job := { st.job with
      pending_approvals := dictPop st.job.pending_approvals dom,
      failed := st.job.failed + 1 },
    sink := st.sink }

/-- State after the reject branch of accept_extracted: entry popped, domain
recorded as rejected, completed incremented, nothing persisted. -/
def rejectState (dom : String) (st : SeqState) : SeqState :=
  { job := { st.job with
      pending_approvals := dictPop st.job.pending_approvals dom,
      rejected_domains := st.job.rejected_domains ++ [dom],
      completed := st.job.completed + 1 },
    sink := st.sink }

/-- Final step of accept_extracted (api_server.py lines 490-494): when no
pending approval remains and completed + failed has reached total, the
status is set to completed. -/
def completionCheck (st : SeqState) : SeqState :=
  if st.job.pending_approvals.isEmpty
      && decide (st.job.total ≤ st.job.completed + st.job.failed) then
    { st with job := { st.job with status := "completed" } }
  else st

/-- Branch selection of accept_extracted: accept with a successful save,
accept with a raising save, or reject. -/
def resolveBranch (dom : String) (data : ExtractedData) (accept persistOk : Bool)
    (st : SeqState) : SeqState :=
  if accept then
    (if persistOk then acceptOkState dom data st else acceptFailState dom st)
  else rejectState dom st

/-- accept_extracted (api_server.py lines 437-496): resolve a pending
approval. An unknown domain is a 404 leaving the state unchanged. On
accept the entry is popped, then save_extracted_data is attempted: on
success the data is recorded as approved, written to the sink and completed
is incremented; when the save raises (persistOk = false) failed is
incremented instead. On reject the entry is popped, the domain recorded as
rejected and completed is incremented. Finally the completion check runs. -/
def accept_extracted (dom : String) (accept persistOk : Bool) (st : SeqState) :
    SeqState :=
  match dictLookup st.job.pending_approvals dom with
  | none => st
  | some data => completionCheck (resolveBranch dom data accept persistOk st)

/-- An approval-resolution request: domain, accept flag, and whether the
save inside the accept branch succeeds. -/
abbrev ResolveEvent := String × Bool × Bool

/-- Apply one approval-resolution request. -/
def applyResolve (st : SeqState) (ev : ResolveEvent) : SeqState :=
  accept_extracted ev.1 ev.2.1 ev.2.2 st

/-! ### Redis job aggregator (redis_manager.py) -/

/-- Job metadata stored under job:job_id (redis_manager.py, create_job),
restricted to coordination-relevant fields. -/
structure RedisJob where
  total : Nat
  completed : Nat
  failed : Nat
  status : String
deriving DecidableEq, Repr

/-- create_job (redis_manager.py lines 45-90): fresh job metadata for a
list of domains. -/
def create_job (domains : List String) : RedisJob :=
  { total := domains.length, completed := 0, failed := 0, status := "pending" }

/-- submit_result (redis_manager.py lines 121-171), job-metadata part:
increment completed or failed according to the success flag, then set
status completed once completed + failed has reached total, else promote a
pending job to processing. -/
def submit_result (success : Bool) (job : RedisJob) : RedisJob :=
  let j :=
    if success then { job with completed := job.completed + 1 }
    else { job with failed := job.failed + 1 }
  if j.total ≤ j.completed + j.failed then { j with status := "completed" }
  else if j.status == "pending" then { j with status := "processing" }
  else j

/-- Fold a list of submissions (domain, success) into the job metadata; the
domain only keys the stored result and does not influence the counters. -/
def runSubmissions (domains : List String) (subs : List (String × Bool)) : RedisJob :=
  subs.foldl (fun j e => submit_result e.2 j) (create_job domains)

/-- Rank of a job status in the spec order PENDING < PROCESSING <
AWAITING_APPROVAL ≤ COMPLETED, on the status strings the source uses. -/
def statusRank : String → Nat
  | "pending" => 0
  | "queued" => 0
  | "processing" => 1
  | "waiting_approval" => 2
  | "completed" => 3
  | _ => 0

/-- Invariant of a reachable Redis job: its status is one of the three
strings submit_result can produce, and once completed the counters have
reached the total. -/
def redisInv (j : RedisJob) : Prop :=
  (j.status = "pending" ∨ j.status = "processing" ∨ j.status = "completed")
  ∧ (j.status = "completed" → j.total ≤ j.completed + j.failed)

/-- Invariant of a reachable sequential job state (after the background run):
status waiting_approval, or completed with no pending approval left. -/
def seqInv (st : SeqState) : Prop :=
  st.job.status = "waiting_approval"
  ∨ (st.job.status = "completed" ∧ st.job.pending_approvals = [])

/-- Counter invariant of a sequential job state: settled counters plus
still-pending entries never exceed the total. -/
def seqCountInv (st : SeqState) : Prop :=
  st.job.completed + st.job.failed + st.job.pending_approvals.length ≤ st.job.total

/-! ### Worker step (worker_new.py, process_once) -/

/-- Behavior of extract_profile on a claimed row: a non-empty profile, the
empty profile it returns after an internal LLM/parse error, or an exception
escaping the pipeline. -/
inductive ExtractResult where
  | ok (profile : ExtractedData)
  | emptyProfile
  | exn (msg : String)
deriving DecidableEq, Repr

/-- Performance metric row (db_new.py, insert_metric), restricted to the
fields process_once fills. -/
structure Metric where
  domain : String
  success : Bool
  error_msg : Option String
deriving DecidableEq, Repr

/-- Python str(e)[:500]: the first 500 characters. -/
def truncate500 (msg : String) : String :=
  String.mk (msg.data.take 500)

/-- Body of the per-row try block of process_once (worker_new.py lines
249-262): extract, and on a non-empty profile persist via
save_extracted_data; a raised exception surfaces as an error value. The
persist argument returns some message when save_extracted_data raises. -/
def processRowAttempt (extract : RawScrape → ExtractResult)
    (persist : String → ExtractedData → Option String)
    (now : Nat) (row : RawScrape) (s : Store) : Except String (Store × Metric) :=
  match extract row with
  | .exn e => .error e
  | .emptyProfile =>
      .ok (update_raw_status row.domain "DONE" now s,
           { domain := row.domain, success := false, error_msg := some "No data extracted" })
  | .ok profile =>
      match persist row.domain profile with
      | some e => .error e
      | none =>
          .ok (update_raw_status row.domain "DONE" now s,
               { domain := row.domain, success := true, error_msg := none })

/-- Per-row processing of process_once with its except clause (worker_new.py
lines 272-278): any exception from the try block is caught and converted to
a FAILED status update plus a failure metric with the message truncated to
500 characters. -/
def processRow (extract : RawScrape → ExtractResult)
    (persist : String → ExtractedData → Option String)
    (now : Nat) (row : RawScrape) (s : Store) : Store × Metric :=
  match processRowAttempt extract persist now row s with
  | .ok r => r
  | .error e =>
      (update_raw_status row.domain "FAILED" now s,
       { domain := row.domain, success := false, error_msg := some (truncate500 e) })

/-- process_once (worker_new.py lines 228-280): claim up to one READY row,
return 0 when none is available, otherwise process each claimed row and
return the number of claimed rows. The metric list accumulates
insert_metric calls. -/
def process_once (extract : RawScrape → ExtractResult)
    (persist : String → ExtractedData → Option String)
    (now : Nat) (worker_id : String) (s : Store) (ms : List Metric) :
    Store × List Metric × Nat :=
  if (claim_pending_raw worker_id 1 now s).1.isEmpty then
    ((claim_pending_raw worker_id 1 now s).2, ms, 0)
  else
    let res := (claim_pending_raw worker_id 1 now s).1.foldl
      (fun acc row =>
        ((processRow extract persist now row acc.1).1,
         acc.2 ++ [(processRow extract persist now row acc.1).2]))
      ((claim_pending_raw worker_id 1 now s).2, ms)
    (res.1, res.2, (claim_pending_raw worker_id 1 now s).1.length)

/-! ### Concrete data for counterexamples and witnesses -/

/-- A task row that is already DONE with stored content. -/
def c2Row : RawScrape :=
  { domain := "a.com", snapshot_path := "p0", clean_text := "old", tech_stack := "[]",
    status := "DONE", created_at := 0, updated_at := 0 }

/-- One-row store whose task is already DONE with stored content. -/
def c2Store : Store := [c2Row]

/-- Two READY tasks, used to exercise claim calls. -/
def c1Store : Store :=
  [{ domain := "a.com", snapshot_path := "pa", clean_text := "ta", tech_stack := "[]",
     status := "READY", created_at := 0, updated_at := 0 },
   { domain := "b.com", snapshot_path := "pb", clean_text := "tb", tech_stack := "[]",
     status := "READY", created_at := 0, updated_at := 0 }]

/-- Store exercising every branch of the lease sweep: one stuck PROCESSING
row, one fresh PROCESSING row, one DONE row, one FAILED row, one READY
row. -/
def c7Store : Store :=
  [{ domain := "stuck.com", snapshot_path := "", clean_text := "", tech_stack := "[]",
     status := "PROCESSING", created_at := 0, updated_at := 10 },
   { domain := "fresh.com", snapshot_path := "", clean_text := "", tech_stack := "[]",
     status := "PROCESSING", created_at := 0, updated_at := 950 },
   { domain := "done.com", snapshot_path := "", clean_text := "", tech_stack := "[]",
     status := "DONE", created_at := 0, updated_at := 10 },
   { domain := "failed.com", snapshot_path := "", clean_text := "", tech_stack := "[]",
     status := "FAILED", created_at := 0, updated_at := 10 },
   { domain := "ready.com", snapshot_path := "", clean_text := "", tech_stack := "[]",
     status := "READY", created_at := 0, updated_at := 10 }]

/-- A READY task row, used for the worker-step scenarios. -/
def c5Row : RawScrape :=
  { domain := "a.com", snapshot_path := "p", clean_text := "text", tech_stack := "[]",
    status := "READY", created_at := 0, updated_at := 0 }

/-- One READY task, used for the worker-step scenarios. -/
def c5Store : Store := [c5Row]

/-- Sequential job with one entry pending approval. -/
def c4State : SeqState :=
  { job := { status := "waiting_approval", total := 1, completed := 0, failed := 0,
             pending_approvals := [("a.com", "data")], approved_data := [],
             rejected_domains := [] },
    sink := [] }

/-- The row produced by the conflict branch of upsert_raw_scrape from a
previously stored row. -/
def overwrittenRow (snapshot_path clean_text tech_stack_json status : String)
    (now : Nat) (r : RawScrape) : RawScrape :=
  { r with snapshot_path := snapshot_path, clean_text := clean_text,
           tech_stack := tech_stack_json, status := status, updated_at := now }

/-! ## Helper lemmas -/

/-- upsertFn never changes the key of a row. -/
theorem upsertFn_domain (dom sp ct ts st : String) (now : Nat) (r : RawScrape) :
    (upsertFn dom sp ct ts st now r).domain = r.domain := by
  unfold upsertFn
  split <;> rfl

/-- Matching on the key commutes with upsertFn. -/
theorem upsertFn_comp_domain (dom sp ct ts st : String) (now : Nat) :
    ((fun x : RawScrape => x.domain == dom) ∘ upsertFn dom sp ct ts st now)
      = fun x : RawScrape => x.domain == dom := by
  funext x
  simp [Function.comp, upsertFn_domain]

/-- Overwriting a row twice with the same values is the same as once. -/
theorem upsertFn_idem (dom sp ct ts st : String) (now : Nat) :
    upsertFn dom sp ct ts st now ∘ upsertFn dom sp ct ts st now
      = upsertFn dom sp ct ts st now := by
  funext r
  by_cases h : r.domain == dom
  · simp [upsertFn, h]
  · simp [upsertFn, h]

/-- A store with no row matching the key is untouched by the conflict
branch. -/
theorem map_upsertFn_eq_self (dom sp ct ts st : String) (now : Nat) (s : Store)
    (h : s.any (fun r => r.domain == dom) = false) :
    s.map (upsertFn dom sp ct ts st now) = s := by
  have hall : ∀ r ∈ s, (r.domain == dom) = false := by
    intro r hrs
    by_contra hc
    rw [List.any_eq_false] at h
    exact h r hrs (by simpa using hc)
  have : ∀ r ∈ s, upsertFn dom sp ct ts st now r = id r := by
    intro r hrs
    simp [upsertFn, hall r hrs]
  rw [List.map_congr_left this, List.map_id]

/-- With unique keys, find? on the key of a stored row returns that row. -/
theorem find?_domain_of_nodup {s : Store} {r : RawScrape}
    (h : storeKeysNodup s) (hr : r ∈ s) :
    s.find? (fun x => x.domain == r.domain) = some r := by
  induction s with
  | nil => cases hr
  | cons a t ih =>
    rw [storeKeysNodup, List.map_cons, List.nodup_cons] at h
    rcases List.mem_cons.1 hr with h1 | h1
    · subst h1
      rw [List.find?_cons_of_pos _ (by simp)]
    · have hmem : r.domain ∈ t.map RawScrape.domain := List.mem_map.2 ⟨r, h1, rfl⟩
      have hne : (a.domain == r.domain) = false := by
        apply beq_eq_false_iff_ne.2
        intro heq
        exact h.1 (heq ▸ hmem)
      rw [List.find?_cons_of_neg _ (by simp [hne])]
      exact ih h.2 h1

/-- claimMark never changes the key of a row. -/
theorem claimMark_domain (doms : List String) (now : Nat) (r : RawScrape) :
    (claimMark doms now r).domain = r.domain := by
  unfold claimMark
  split <;> rfl

/-- Matching on the key commutes with claimMark. -/
theorem claimMark_comp_domain (doms : List String) (now : Nat) (d : String) :
    ((fun x : RawScrape => x.domain == d) ∘ claimMark doms now)
      = fun x : RawScrape => x.domain == d := by
  funext x
  simp [Function.comp, claimMark_domain]

/-- releaseFn never changes the key of a row. -/
theorem releaseFn_domain (timeout_seconds now : Nat) (r : RawScrape) :
    (releaseFn timeout_seconds now r).domain = r.domain := by
  unfold releaseFn
  split <;> rfl

/-- Matching on the key commutes with releaseFn. -/
theorem releaseFn_comp_domain (timeout_seconds now : Nat) (d : String) :
    ((fun x : RawScrape => x.domain == d) ∘ releaseFn timeout_seconds now)
      = fun x : RawScrape => x.domain == d := by
  funext x
  simp [Function.comp, releaseFn_domain]

/-- updateFn never changes the key of a row. -/
theorem updateFn_domain (dom st : String) (now : Nat) (r : RawScrape) :
    (updateFn dom st now r).domain = r.domain := by
  unfold updateFn
  split <;> rfl

/-- Matching on the key commutes with updateFn. -/
theorem updateFn_comp_domain (dom st : String) (now : Nat) (d : String) :
    ((fun x : RawScrape => x.domain == d) ∘ updateFn dom st now)
      = fun x : RawScrape => x.domain == d := by
  funext x
  simp [Function.comp, updateFn_domain]

/-- With unique keys, two stored rows with the same key coincide. -/
theorem eq_of_mem_of_nodup {s : Store} {r1 r2 : RawScrape}
    (h : storeKeysNodup s) (h1 : r1 ∈ s) (h2 : r2 ∈ s)
    (heq : r1.domain = r2.domain) : r1 = r2 := by
  have f1 := find?_domain_of_nodup h h1
  have f2 := find?_domain_of_nodup h h2
  rw [← heq] at f2
  rw [f1] at f2
  exact Option.some.inj f2

/-- After UPDATE of a present key, the looked-up status is the new one. -/
theorem statusOf_update_raw_status {s : Store} {d : String}
    (h : ∃ r ∈ s, r.domain = d) (st : String) (now : Nat) :
    statusOf (update_raw_status d st now s) d = some st := by
  obtain ⟨r, hr, hd⟩ := h
  have hsome : (s.find? (fun x => x.domain == d)).isSome := by
    rw [List.find?_isSome]
    exact ⟨r, hr, by simp [hd]⟩
  obtain ⟨r0, hr0⟩ := Option.isSome_iff_exists.1 hsome
  have hdom0 := List.find?_some hr0
  rw [statusOf, update_raw_status, List.find?_map, updateFn_comp_domain, hr0]
  simp only [Option.map_some']
  rw [updateFn, if_pos hdom0]

/-- Membership in the seen-set fold: anything in the accumulator or in the
remaining input, and nothing else. -/
theorem dedup_fold_mem (l : List String) : ∀ (acc : List String) (a : String),
    (a ∈ l.foldl (fun acc d => if d ∈ acc then acc else acc ++ [d]) acc) ↔
      a ∈ acc ∨ a ∈ l := by
  induction l with
  | nil => simp
  | cons d t ih =>
    intro acc a
    simp only [List.foldl_cons]
    by_cases h : d ∈ acc
    · rw [if_pos h, ih]
      simp only [List.mem_cons]
      constructor
      · rintro (h1 | h2)
        · exact Or.inl h1
        · exact Or.inr (Or.inr h2)
      · rintro (h1 | h1 | h2)
        · exact Or.inl h1
        · exact Or.inl (h1 ▸ h)
        · exact Or.inr h2
    · rw [if_neg h, ih]
      simp only [List.mem_append, List.mem_singleton, List.mem_cons]
      tauto

/-- The seen-set fold keeps the accumulator duplicate-free. -/
theorem dedup_fold_nodup (l : List String) : ∀ (acc : List String), acc.Nodup →
    (l.foldl (fun acc d => if d ∈ acc then acc else acc ++ [d]) acc).Nodup := by
  induction l with
  | nil => intro acc h; simpa using h
  | cons d t ih =>
    intro acc h
    simp only [List.foldl_cons]
    by_cases hd : d ∈ acc
    · rw [if_pos hd]; exact ih acc h
    · rw [if_neg hd]
      refine ih (acc ++ [d]) ?_
      simp [List.nodup_append, h, hd]

/-- The seen-set fold appends to the accumulator a sublist of the input. -/
theorem dedup_fold_append (l : List String) : ∀ (acc : List String),
    ∃ r, l.foldl (fun acc d => if d ∈ acc then acc else acc ++ [d]) acc = acc ++ r ∧
      r.Sublist l := by
  induction l with
  | nil => intro acc; exact ⟨[], by simp, List.Sublist.refl []⟩
  | cons d t ih =>
    intro acc
    simp only [List.foldl_cons]
    by_cases hd : d ∈ acc
    · rw [if_pos hd]
      obtain ⟨r, hr, hs⟩ := ih acc
      exact ⟨r, hr, hs.cons d⟩
    · rw [if_neg hd]
      obtain ⟨r, hr, hs⟩ := ih (acc ++ [d])
      refine ⟨d :: r, ?_, hs.cons₂ d⟩
      rw [hr, List.append_assoc]
      rfl

/-- dedupPreserve output has no duplicates. -/
theorem dedupPreserve_nodup (l : List String) : (dedupPreserve l).Nodup :=
  dedup_fold_nodup l [] List.nodup_nil

/-- dedupPreserve keeps exactly the elements of the input. -/
theorem dedupPreserve_mem (l : List String) (a : String) :
    a ∈ dedupPreserve l ↔ a ∈ l := by
  unfold dedupPreserve
  rw [dedup_fold_mem]
  simp

/-- dedupPreserve output is a sublist of the input, so the surviving
occurrences appear in input order. -/
theorem dedupPreserve_sublist (l : List String) : (dedupPreserve l).Sublist l := by
  obtain ⟨r, hr, hs⟩ := dedup_fold_append l []
  unfold dedupPreserve
  rw [hr]
  simpa using hs

/-- Recurrence showing dedupPreserve keeps first occurrences: a freshly
appended element survives exactly when it has not been seen before. -/
theorem dedupPreserve_snoc (l : List String) (a : String) :
    dedupPreserve (l ++ [a]) =
      if a ∈ dedupPreserve l then dedupPreserve l else dedupPreserve l ++ [a] := by
  unfold dedupPreserve
  rw [List.foldl_append]
  rfl

/-- A claim call leaves the key column of the table unchanged. -/
theorem claim_snd_domains (w : String) (l n : Nat) (s : Store) :
    (claim_pending_raw w l n s).2.map RawScrape.domain = s.map RawScrape.domain := by
  show (s.map (claimMark _ n)).map RawScrape.domain = s.map RawScrape.domain
  rw [List.map_map]
  congr 1
  funext x
  simp [Function.comp, claimMark_domain]

/-- A row returned by a claim call was in the table, READY. -/
theorem claim_fst_mem {w : String} {l n : Nat} {s : Store} {r : RawScrape}
    (hr : r ∈ (claim_pending_raw w l n s).1) : r ∈ s ∧ r.status = "READY" := by
  have hf : r ∈ s.filter (fun x => x.status == "READY") := List.take_subset l _ hr
  have := List.mem_filter.1 hf
  exact ⟨this.1, by simpa using this.2⟩

/-- Evaluation of the worker step when the claim call returns exactly one
row. -/
theorem process_once_single (extract : RawScrape → ExtractResult)
    (persist : String → ExtractedData → Option String)
    (now : Nat) (wid : String) (s : Store) (ms : List Metric) (r : RawScrape)
    (hp : (claim_pending_raw wid 1 now s).1 = [r]) :
    process_once extract persist now wid s ms
      = ((processRow extract persist now r (claim_pending_raw wid 1 now s).2).1,
         ms ++ [(processRow extract persist now r (claim_pending_raw wid 1 now s).2).2],
         1) := by
  rw [process_once, hp]
  rfl

/-- The updated status is observable for a row whose key is in the claimed
table. -/
theorem statusOf_update_after_claim {wid : String} {n : Nat} {s : Store}
    {r : RawScrape} (hrs : r ∈ s) (st : String) (now : Nat) :
    statusOf (update_raw_status r.domain st now (claim_pending_raw wid 1 n s).2)
        r.domain = some st := by
  apply statusOf_update_raw_status
  refine ⟨claimMark (((s.filter (fun x => x.status == "READY")).take 1).map
    RawScrape.domain) n r, ?_, claimMark_domain _ _ _⟩
  exact List.mem_map_of_mem _ hrs

/-- One result submission adds exactly one to the settled counters and
preserves the total. -/
theorem submit_result_counters (b : Bool) (j : RedisJob) :
    (submit_result b j).completed + (submit_result b j).failed
        = j.completed + j.failed + 1
  ∧ (submit_result b j).total = j.total := by
  cases b <;> simp only [submit_result] <;> split_ifs <;> simp <;> omega

/-- One result submission preserves the reachable-job invariant. -/
theorem submit_result_inv {j : RedisJob} (h : redisInv j) (b : Bool) :
    redisInv (submit_result b j) := by
  obtain ⟨hs, himp⟩ := h
  constructor
  · cases b <;> simp only [submit_result] <;> split_ifs <;> simp_all
  · intro hc
    obtain ⟨hsum, htot⟩ := submit_result_counters b j
    cases b <;> simp only [submit_result] at hc ⊢ <;> split_ifs at hc ⊢ with h1 <;>
      simp_all <;> omega

/-- The reachable-job invariant holds along every submission history. -/
theorem redisInv_foldl (subs : List (String × Bool)) :
    ∀ j : RedisJob, redisInv j →
      redisInv (subs.foldl (fun a e => submit_result e.2 a) j) := by
  induction subs with
  | nil => intro j h; exact h
  | cons e t ih =>
    intro j h
    exact ih (submit_result e.2 j) (submit_result_inv h e.2)

/-- The fresh job satisfies the reachable-job invariant. -/
theorem redisInv_create (domains : List String) : redisInv (create_job domains) := by
  constructor
  · left; rfl
  · intro h
    simp [create_job] at h

/-- Every submission history from a fresh job satisfies the invariant. -/
theorem redisInv_run (domains : List String) (subs : List (String × Bool)) :
    redisInv (runSubmissions domains subs) :=
  redisInv_foldl subs (create_job domains) (redisInv_create domains)

/-- One submission never lowers the status rank, and a completed job stays
completed. -/
theorem submit_result_mono {j : RedisJob} (h : redisInv j) (b : Bool) :
    statusRank j.status ≤ statusRank (submit_result b j).status
  ∧ (j.status = "completed" → (submit_result b j).status = "completed") := by
  obtain ⟨hs, himp⟩ := h
  constructor
  · rcases hs with h0 | h0 | h0 <;>
      cases b <;>
        simp only [submit_result, h0] <;> split_ifs <;> simp_all [statusRank]
  · intro hc
    have hle : j.total ≤ j.completed + j.failed := himp hc
    cases b <;> simp only [submit_result, hc] <;> split_ifs with h1 <;>
      simp_all <;> omega

/-- The counters a submission history produces are exactly its length, and
the total is the number of task keys of the job. -/
theorem runSubmissions_counters (domains : List String) (subs : List (String × Bool)) :
    (runSubmissions domains subs).completed + (runSubmissions domains subs).failed
        = subs.length
  ∧ (runSubmissions domains subs).total = domains.length := by
  suffices h : ∀ (l : List (String × Bool)) (j : RedisJob),
      (l.foldl (fun a e => submit_result e.2 a) j).completed
          + (l.foldl (fun a e => submit_result e.2 a) j).failed
        = j.completed + j.failed + l.length
      ∧ (l.foldl (fun a e => submit_result e.2 a) j).total = j.total by
    obtain ⟨h1, h2⟩ := h subs (create_job domains)
    exact ⟨by rw [runSubmissions, h1]; simp [create_job],
      by rw [runSubmissions, h2]; simp [create_job]⟩
  intro l
  induction l with
  | nil => intro j; simp
  | cons e t ih =>
    intro j
    obtain ⟨h1, h2⟩ := ih (submit_result e.2 j)
    obtain ⟨h3, h4⟩ := submit_result_counters e.2 j
    refine ⟨?_, by rw [List.foldl_cons, h2, h4]⟩
    rw [List.foldl_cons, h1, h3]
    simp [List.length_cons]
    omega

/-- Every branch of a resolution keeps the job status of the state it
starts from. -/
theorem resolve_branch_status (dom : String) (data : ExtractedData) (st : SeqState)
    (a p : Bool) :
    (resolveBranch dom data a p st).job.status = st.job.status := by
  cases a <;> cases p <;> rfl

/-- Every branch of a resolution pops the entry of the resolved key. -/
theorem resolve_branch_pending (dom : String) (data : ExtractedData) (st : SeqState)
    (a p : Bool) :
    (resolveBranch dom data a p st).job.pending_approvals
      = dictPop st.job.pending_approvals dom := by
  cases a <;> cases p <;> rfl

/-- Every branch of a resolution adds exactly one settled outcome while
keeping the total. -/
theorem resolve_branch_counters (dom : String) (data : ExtractedData) (st : SeqState)
    (a p : Bool) :
    (resolveBranch dom data a p st).job.completed
      + (resolveBranch dom data a p st).job.failed
        = st.job.completed + st.job.failed + 1
  ∧ (resolveBranch dom data a p st).job.total = st.job.total := by
  cases a <;> cases p <;> constructor <;>
    simp [resolveBranch, acceptOkState, acceptFailState, rejectState] <;> omega

/-- Evaluation of a resolution whose key has a pending entry. -/
theorem accept_extracted_shape {st : SeqState} {dom : String} {data : ExtractedData}
    (hlk : dictLookup st.job.pending_approvals dom = some data)
    (accept persistOk : Bool) :
    accept_extracted dom accept persistOk st
      = completionCheck (resolveBranch dom data accept persistOk st) := by
  rw [accept_extracted, hlk]

/-- Evaluation of a resolution whose key has no pending entry: a 404, no
state change. -/
theorem accept_extracted_notFound {st : SeqState} {dom : String}
    (hlk : dictLookup st.job.pending_approvals dom = none)
    (accept persistOk : Bool) :
    accept_extracted dom accept persistOk st = st := by
  rw [accept_extracted, hlk]

/-- The completion check only ever touches the status field. -/
theorem completionCheck_preserves (st : SeqState) :
    (completionCheck st).job.total = st.job.total
  ∧ (completionCheck st).job.completed = st.job.completed
  ∧ (completionCheck st).job.failed = st.job.failed
  ∧ (completionCheck st).job.pending_approvals = st.job.pending_approvals
  ∧ (completionCheck st).job.approved_data = st.job.approved_data
  ∧ (completionCheck st).job.rejected_domains = st.job.rejected_domains
  ∧ (completionCheck st).sink = st.sink := by
  unfold completionCheck
  split <;> simp

/-- The completion check either leaves the state alone or marks it completed
with an empty pending list. -/
theorem completionCheck_cases (st : SeqState) :
    completionCheck st = st
  ∨ ((completionCheck st).job.status = "completed"
     ∧ (completionCheck st).job.pending_approvals = []) := by
  unfold completionCheck
  split
  · next hcond =>
    right
    refine ⟨rfl, ?_⟩
    rw [Bool.and_eq_true] at hcond
    simpa using List.isEmpty_iff.1 hcond.1
  · left; rfl

/-- The status after the completion check is completed exactly when the
check fired or the status already was completed. -/
theorem completionCheck_status_iff (st : SeqState) (h : st.job.status ≠ "completed") :
    ((completionCheck st).job.status = "completed" ↔
      (st.job.pending_approvals.isEmpty = true
       ∧ st.job.total ≤ st.job.completed + st.job.failed)) := by
  unfold completionCheck
  split
  · next hcond =>
    rw [Bool.and_eq_true] at hcond
    constructor
    · intro hdone
      exact ⟨hcond.1, by simpa using hcond.2⟩
    · intro hdone
      rfl
  · next hcond =>
    constructor
    · intro hc
      exact absurd hc h
    · intro hrhs
      exact absurd (by simp [hrhs.1, hrhs.2] : (st.job.pending_approvals.isEmpty
        && decide (st.job.total ≤ st.job.completed + st.job.failed)) = true) hcond

/-- A present key makes the dictionary lookup through find? explicit. -/
theorem dictLookup_some {l : List (String × ExtractedData)} {k : String}
    {data : ExtractedData} (h : dictLookup l k = some data) :
    ∃ pr ∈ l, (pr.1 == k) = true ∧ pr.2 = data := by
  rw [dictLookup] at h
  rcases hf : l.find? (fun p => p.1 == k) with _ | pr
  · rw [hf] at h; cases h
  · rw [hf] at h
    have hp := List.find?_some hf
    refine ⟨pr, List.mem_of_find?_eq_some hf, hp, ?_⟩
    simpa using h

/-- Popping a present key shortens the dictionary by exactly one entry. -/
theorem dictPop_length {l : List (String × ExtractedData)} {k : String}
    {data : ExtractedData} (h : dictLookup l k = some data) :
    (dictPop l k).length + 1 = l.length := by
  obtain ⟨pr, hmem, hpr, -⟩ := dictLookup_some h
  rw [dictPop, List.length_eraseP_of_mem hmem hpr]
  have : 1 ≤ l.length := List.length_pos.2 (List.ne_nil_of_mem hmem)
  omega

/-- A dictionary assignment adds at most one entry. -/
theorem dictInsert_length (l : List (String × ExtractedData)) (k : String)
    (v : ExtractedData) : (dictInsert l k v).length ≤ l.length + 1 := by
  rw [dictInsert]
  split
  · rw [List.length_map]; omega
  · rw [List.length_append]; simp

/-- The background run reports status waiting_approval unconditionally. -/
theorem bg_status (outcomes : List (String × Option ExtractedData)) :
    (process_domains_background outcomes).status = "waiting_approval" := by
  rw [process_domains_background]

/-- The domain loop adds at most one settled-or-queued outcome per domain
and never touches the total. -/
theorem bg_fold_bound (l : List (String × Option ExtractedData)) :
    ∀ j : SeqJob,
      ((l.foldl (fun j p => processDomainStep j p.1 p.2) j).completed
        + (l.foldl (fun j p => processDomainStep j p.1 p.2) j).failed
        + (l.foldl (fun j p => processDomainStep j p.1 p.2) j).pending_approvals.length
        ≤ j.completed + j.failed + j.pending_approvals.length + l.length)
      ∧ (l.foldl (fun j p => processDomainStep j p.1 p.2) j).total = j.total := by
  induction l with
  | nil => intro j; exact ⟨by simp, rfl⟩
  | cons e t ih =>
    intro j
    obtain ⟨ihb, iht⟩ := ih (processDomainStep j e.1 e.2)
    rw [List.foldl_cons]
    refine ⟨le_trans ihb ?_, ?_⟩
    · rcases e with ⟨d, _ | data⟩
      · simp [processDomainStep, List.length_cons]
        omega
      · simp only [processDomainStep]
        have := dictInsert_length j.pending_approvals d data
        simp [List.length_cons]
        omega
    · rw [iht]
      cases e.2 <;> rfl

/-- The background run keeps the job total at the number of domains. -/
theorem bg_total (outcomes : List (String × Option ExtractedData)) :
    (process_domains_background outcomes).total = outcomes.length := by
  show (outcomes.foldl (fun j p => processDomainStep j p.1 p.2)
    (initJob outcomes.length)).total = outcomes.length
  rw [(bg_fold_bound outcomes (initJob outcomes.length)).2]
  rfl

/-- The background run settles or queues at most one outcome per domain. -/
theorem bg_counts (outcomes : List (String × Option ExtractedData)) :
    (process_domains_background outcomes).completed
      + (process_domains_background outcomes).failed
      + (process_domains_background outcomes).pending_approvals.length
    ≤ (process_domains_background outcomes).total := by
  obtain ⟨hb, ht⟩ := bg_fold_bound outcomes (initJob outcomes.length)
  show (outcomes.foldl (fun j p => processDomainStep j p.1 p.2)
      (initJob outcomes.length)).completed
    + (outcomes.foldl (fun j p => processDomainStep j p.1 p.2)
      (initJob outcomes.length)).failed
    + (outcomes.foldl (fun j p => processDomainStep j p.1 p.2)
      (initJob outcomes.length)).pending_approvals.length
    ≤ (outcomes.foldl (fun j p => processDomainStep j p.1 p.2)
      (initJob outcomes.length)).total
  rw [ht]
  refine le_trans hb ?_
  simp [initJob]

/-- A resolution preserves the reachable-state invariant. -/
theorem applyResolve_inv {st : SeqState} (h : seqInv st) (ev : ResolveEvent) :
    seqInv (applyResolve st ev) := by
  rcases hlk : dictLookup st.job.pending_approvals ev.1 with _ | data
  · rw [applyResolve, accept_extracted_notFound hlk]
    exact h
  · rw [applyResolve, accept_extracted_shape hlk]
    rcases completionCheck_cases (resolveBranch ev.1 data ev.2.1 ev.2.2 st)
      with hsame | hdone
    · rw [hsame]
      rcases h with h0 | h0
      · exact Or.inl ((resolve_branch_status ev.1 data st ev.2.1 ev.2.2).trans h0)
      · rw [h0.2] at hlk
        cases hlk
    · exact Or.inr hdone

/-- The reachable-state invariant holds along every resolution history. -/
theorem seqInv_foldl (resolves : List ResolveEvent) :
    ∀ st : SeqState, seqInv st → seqInv (resolves.foldl applyResolve st) := by
  induction resolves with
  | nil => intro st h; exact h
  | cons e t ih =>
    intro st h
    exact ih (applyResolve st e) (applyResolve_inv h e)

/-- The initial sequential state satisfies the reachable-state invariant. -/
theorem seqInv_init (outcomes : List (String × Option ExtractedData)) :
    seqInv (initSeqState outcomes) :=
  Or.inl (bg_status outcomes)

/-- A resolution preserves the counter invariant. -/
theorem applyResolve_count {st : SeqState} (h : seqCountInv st) (ev : ResolveEvent) :
    seqCountInv (applyResolve st ev) := by
  rcases hlk : dictLookup st.job.pending_approvals ev.1 with _ | data
  · rw [applyResolve, accept_extracted_notFound hlk]
    exact h
  · rw [applyResolve, accept_extracted_shape hlk, seqCountInv]
    obtain ⟨hcnt, htot⟩ := resolve_branch_counters ev.1 data st ev.2.1 ev.2.2
    have hpend := resolve_branch_pending ev.1 data st ev.2.1 ev.2.2
    have hpop := dictPop_length hlk
    obtain ⟨ht2, hc2, hf2, hp2, -, -, -⟩ :=
      completionCheck_preserves (resolveBranch ev.1 data ev.2.1 ev.2.2 st)
    rw [seqCountInv] at h
    rw [ht2, hc2, hf2, hp2, hpend, htot]
    omega

/-- The counter invariant holds along every resolution history. -/
theorem seqCountInv_foldl (resolves : List ResolveEvent) :
    ∀ st : SeqState, seqCountInv st → seqCountInv (resolves.foldl applyResolve st) := by
  induction resolves with
  | nil => intro st h; exact h
  | cons e t ih =>
    intro st h
    exact ih (applyResolve st e) (applyResolve_count h e)

/-- The initial sequential state satisfies the counter invariant. -/
theorem seqCountInv_init (outcomes : List (String × Option ExtractedData)) :
    seqCountInv (initSeqState outcomes) :=
  bg_counts outcomes

/-- A resolution never lowers the status rank, and a completed job stays
completed. -/
theorem applyResolve_mono {st : SeqState} (h : seqInv st) (ev : ResolveEvent) :
    statusRank st.job.status ≤ statusRank (applyResolve st ev).job.status
  ∧ (st.job.status = "completed" → (applyResolve st ev).job.status = "completed") := by
  rcases hlk : dictLookup st.job.pending_approvals ev.1 with _ | data
  · rw [applyResolve, accept_extracted_notFound hlk]
    exact ⟨le_refl _, fun hc => hc⟩
  · rw [applyResolve, accept_extracted_shape hlk]
    rcases h with h0 | h0
    · rcases completionCheck_cases (resolveBranch ev.1 data ev.2.1 ev.2.2 st)
        with hsame | hdone
      · rw [hsame, resolve_branch_status ev.1 data st ev.2.1 ev.2.2, h0]
        exact ⟨le_refl _, fun hc => absurd hc (by decide)⟩
      · rw [hdone.1, h0]
        exact ⟨by decide, fun _ => rfl⟩
    · rw [h0.2] at hlk
      cases hlk

/-! ## Claim theorems -/

/-- C10: normalize_domains applied to a submitted list of raw keys produces
a duplicate-free list, whose members are exactly the cleaned tokens of the
input (each token lowercased, stripped of an http:// or https:// scheme and
of everything from the first slash onward), in input order (a sublist of
the cleaned token stream); the deduplication keeps first occurrences, and a
concrete evaluation shows keys differing only in case, scheme or path
collapsing into one task key. -/
theorem C10_normalize_domains_spec (raw_domains : List String) :
    (normalize_domains raw_domains).Nodup
  ∧ (∀ d, d ∈ normalize_domains raw_domains ↔ d ∈ cleanedTokens raw_domains)
  ∧ (normalize_domains raw_domains).Sublist (cleanedTokens raw_domains)
  ∧ (∀ (l : List String) (a : String),
      dedupPreserve (l ++ [a]) =
        if a ∈ dedupPreserve l then dedupPreserve l else dedupPreserve l ++ [a])
  ∧ normalize_domains ["HTTPS://A.com/path, a.com b.com"] = ["a.com", "b.com"] := by
  refine ⟨dedupPreserve_nodup _, fun d => dedupPreserve_mem _ d,
    dedupPreserve_sublist _, dedupPreserve_snoc, ?_⟩
  decide

/-- C2 counterexample: registering a key that is already present does not
leave the row untouched; the upsert overwrites the stored content and the
status of a DONE task. -/
theorem C2_counterexample :
    upsert_raw_scrape "a.com" "p1" "new" "[]" "READY" 5 c2Store ≠ c2Store := by
  decide

/-- C2 (amended): registration is an overwrite, not a no-op, on a present
key: the row keyed by the domain ends up with the new payload columns,
status and updated_at (created_at kept); consequently registration is
idempotent only in the sense that re-registering the same key with the same
values and timestamp leaves the store unchanged. -/
theorem C2_register_overwrite_idempotent :
    (∀ dom sp ct ts st now (s : Store),
       upsert_raw_scrape dom sp ct ts st now (upsert_raw_scrape dom sp ct ts st now s)
         = upsert_raw_scrape dom sp ct ts st now s)
  ∧ (∀ dom sp ct ts st now (s : Store) (r : RawScrape),
       storeKeysNodup s → r ∈ s → r.domain = dom →
       (upsert_raw_scrape dom sp ct ts st now s).find? (fun x => x.domain == dom)
         = some (overwrittenRow sp ct ts st now r)) := by
  constructor
  · intro dom sp ct ts st now s
    by_cases h : s.any (fun r => r.domain == dom)
    · have hin : upsert_raw_scrape dom sp ct ts st now s
          = s.map (upsertFn dom sp ct ts st now) := by
        rw [upsert_raw_scrape, if_pos h]
      rw [hin, upsert_raw_scrape,
        if_pos (by rwa [List.any_map, upsertFn_comp_domain dom sp ct ts st now]),
        List.map_map, upsertFn_idem]
    · have hin : upsert_raw_scrape dom sp ct ts st now s
          = s ++ [freshRow dom sp ct ts st now] := by
        rw [upsert_raw_scrape, if_neg h]
      rw [hin, upsert_raw_scrape,
        if_pos (by simp [List.any_append, freshRow]),
        List.map_append, map_upsertFn_eq_self dom sp ct ts st now s (by simpa using h)]
      simp [upsertFn, freshRow]
  · intro dom sp ct ts st now s r hnd hr hdom
    have hany : s.any (fun x => x.domain == dom) = true :=
      List.any_eq_true.2 ⟨r, hr, by simp [hdom]⟩
    have hfind := find?_domain_of_nodup hnd hr
    rw [hdom] at hfind
    rw [upsert_raw_scrape, if_pos hany, List.find?_map,
      upsertFn_comp_domain dom sp ct ts st now, hfind]
    simp [upsertFn, hdom, overwrittenRow]

/-- C2 witness: the amended registration behavior evaluated on the concrete
one-row store holding a DONE task. -/
theorem C2_register_overwrite_idempotent_witness :
    upsert_raw_scrape "a.com" "p1" "new" "[]" "READY" 5
        (upsert_raw_scrape "a.com" "p1" "new" "[]" "READY" 5 c2Store)
      = upsert_raw_scrape "a.com" "p1" "new" "[]" "READY" 5 c2Store
  ∧ (upsert_raw_scrape "a.com" "p1" "new" "[]" "READY" 5 c2Store).find?
        (fun x => x.domain == "a.com")
      = some (overwrittenRow "p1" "new" "[]" "READY" 5 c2Row) :=
  ⟨C2_register_overwrite_idempotent.1 "a.com" "p1" "new" "[]" "READY" 5 c2Store,
   C2_register_overwrite_idempotent.2 "a.com" "p1" "new" "[]" "READY" 5 c2Store c2Row
     (by decide) (by decide) rfl⟩

/-- C1: a claim call returns only rows that are READY (the spec's PENDING)
at call time, marks each returned row PROCESSING (the spec's CLAIMED) in
the stored table, returns the empty list when no READY row exists, and two
claim calls composed in either order (the BEGIN IMMEDIATE transaction
serializes them) return disjoint key sets, for any owners and limits. -/
theorem C1_claim_atomic_disjoint (s : Store) (w1 w2 : String) (l1 l2 n1 n2 : Nat)
    (hnd : storeKeysNodup s) :
    (∀ r ∈ (claim_pending_raw w1 l1 n1 s).1, r ∈ s ∧ r.status = "READY")
  ∧ (∀ d ∈ (claim_pending_raw w1 l1 n1 s).1.map RawScrape.domain,
      statusOf (claim_pending_raw w1 l1 n1 s).2 d = some "PROCESSING")
  ∧ ((∀ r ∈ s, r.status ≠ "READY") → (claim_pending_raw w1 l1 n1 s).1 = [])
  ∧ (∀ d ∈ (claim_pending_raw w1 l1 n1 s).1.map RawScrape.domain,
      d ∉ (claim_pending_raw w2 l2 n2 (claim_pending_raw w1 l1 n1 s).2).1.map
            RawScrape.domain) := by
  have hsel : ∀ r ∈ (claim_pending_raw w1 l1 n1 s).1, r ∈ s ∧ r.status = "READY" := by
    intro r hr
    have hf : r ∈ s.filter (fun x => x.status == "READY") :=
      List.take_subset l1 _ hr
    have := List.mem_filter.1 hf
    exact ⟨this.1, by simpa using this.2⟩
  have hmarked : ∀ d ∈ (claim_pending_raw w1 l1 n1 s).1.map RawScrape.domain,
      statusOf (claim_pending_raw w1 l1 n1 s).2 d = some "PROCESSING" := by
    intro d hd
    obtain ⟨r, hr, hrd⟩ := List.mem_map.1 hd
    obtain ⟨hrs, hready⟩ := hsel r hr
    have hfind := find?_domain_of_nodup hnd hrs
    rw [hrd] at hfind
    have hcontains :
        ((((s.filter (fun x => x.status == "READY")).take l1).map
          RawScrape.domain).contains r.domain) = true := by
      rw [List.contains_eq_any_beq, List.any_eq_true]
      exact ⟨r.domain, hrd ▸ hd, by simp⟩
    rw [statusOf, claim_pending_raw, List.find?_map, claimMark_comp_domain, hfind]
    simp only [Option.map_some']
    rw [claimMark, if_pos (by rw [hcontains, hready]; rfl)]
  refine ⟨hsel, hmarked, ?_, ?_⟩
  · intro hnone
    have : s.filter (fun x => x.status == "READY") = [] := by
      rw [List.filter_eq_nil_iff]
      intro r hr
      simpa using hnone r hr
    simp [claim_pending_raw, this]
  · intro d hd hd2
    obtain ⟨r2, hr2, hr2d⟩ := List.mem_map.1 hd2
    have hf2 : r2 ∈ (claim_pending_raw w1 l1 n1 s).2.filter
        (fun x => x.status == "READY") := List.take_subset l2 _ hr2
    have hr2mem := (List.mem_filter.1 hf2).1
    have hr2ready : r2.status = "READY" := by
      simpa using (List.mem_filter.1 hf2).2
    have hst := hmarked d hd
    have hfind2 : ((claim_pending_raw w1 l1 n1 s).2.find?
        (fun x => x.domain == d)).isSome := by
      rw [List.find?_isSome]
      exact ⟨r2, hr2mem, by simp [hr2d]⟩
    obtain ⟨r0, hr0⟩ := Option.isSome_iff_exists.1 hfind2
    have : statusOf (claim_pending_raw w1 l1 n1 s).2 d = some r0.status := by
      rw [statusOf, hr0]
      rfl
    rw [hst] at this
    have hr0status : r0.status = "PROCESSING" := (Option.some.inj this).symm
    have hr0mem := List.mem_of_find?_eq_some hr0
    have hr0d : r0.domain = d := by
      simpa using List.find?_some hr0
    have hnd1 : storeKeysNodup (claim_pending_raw w1 l1 n1 s).2 := by
      rw [storeKeysNodup, claim_pending_raw, List.map_map]
      have : RawScrape.domain ∘ claimMark
          (((s.filter (fun x => x.status == "READY")).take l1).map RawScrape.domain) n1
            = RawScrape.domain := by
        funext x
        simp [Function.comp, claimMark_domain]
      rw [this]
      exact hnd
    have := eq_of_mem_of_nodup hnd1 hr2mem hr0mem (hr2d.trans hr0d.symm)
    rw [this, hr0status] at hr2ready
    exact (by decide : ("PROCESSING" : String) ≠ "READY") hr2ready

/-- C1 witness: two claim calls on the concrete two-task store, each with
limit one; the first takes a.com, the second takes b.com and the marked
statuses and disjointness are observed. -/
theorem C1_claim_atomic_disjoint_witness :
    (∀ r ∈ (claim_pending_raw "w1" 1 3 c1Store).1, r ∈ c1Store ∧ r.status = "READY")
  ∧ (∀ d ∈ (claim_pending_raw "w1" 1 3 c1Store).1.map RawScrape.domain,
      statusOf (claim_pending_raw "w1" 1 3 c1Store).2 d = some "PROCESSING")
  ∧ ((∀ r ∈ c1Store, r.status ≠ "READY") → (claim_pending_raw "w1" 1 3 c1Store).1 = [])
  ∧ (∀ d ∈ (claim_pending_raw "w1" 1 3 c1Store).1.map RawScrape.domain,
      d ∉ (claim_pending_raw "w2" 1 4 (claim_pending_raw "w1" 1 3 c1Store).2).1.map
            RawScrape.domain) :=
  C1_claim_atomic_disjoint c1Store "w1" "w2" 1 1 3 4 (by decide)

/-- C7: the sweep resets exactly the stuck rows: a PROCESSING row whose
updated_at is older than the sweep time minus the timeout comes back READY
with a fresh updated_at, every other row (DONE, FAILED, READY, or a
PROCESSING row with a fresh lease) is returned unchanged, and the returned
count is the number of stuck rows; no owner is stored in the table, so
there is no owner column to clear. -/
theorem C7_release_stuck_exact (timeout_seconds now : Nat) (s : Store)
    (hnd : storeKeysNodup s) :
    (release_stuck_processing timeout_seconds now s).1
        = (s.filter (stuckRow timeout_seconds now)).length
  ∧ (∀ r ∈ s, stuckRow timeout_seconds now r = true →
      (release_stuck_processing timeout_seconds now s).2.find?
          (fun x => x.domain == r.domain)
        = some { r with status := "READY", updated_at := now })
  ∧ (∀ r ∈ s, stuckRow timeout_seconds now r = false →
      (release_stuck_processing timeout_seconds now s).2.find?
          (fun x => x.domain == r.domain)
        = some r)
  ∧ (∀ r : RawScrape, stuckRow timeout_seconds now r = true ↔
      (r.status = "PROCESSING" ∧ r.updated_at < now - timeout_seconds)) := by
  refine ⟨rfl, ?_, ?_, ?_⟩
  · intro r hr hstuck
    rw [release_stuck_processing, List.find?_map, releaseFn_comp_domain,
      find?_domain_of_nodup hnd hr]
    simp only [Option.map_some']
    rw [releaseFn, if_pos hstuck]
  · intro r hr hstuck
    rw [release_stuck_processing, List.find?_map, releaseFn_comp_domain,
      find?_domain_of_nodup hnd hr]
    simp only [Option.map_some']
    rw [releaseFn, if_neg (by simp [hstuck])]
  · intro r
    rw [stuckRow]
    simp

/-- C7 witness: the sweep with timeout 900 at time 1000 on the concrete
five-row store resets the stuck PROCESSING row (updated_at 10 < 100),
leaves the fresh PROCESSING row (updated_at 950), the DONE, FAILED and
READY rows unchanged, and reports one row reclaimed. -/
theorem C7_release_stuck_exact_witness :
    (release_stuck_processing 900 1000 c7Store).1
        = (c7Store.filter (stuckRow 900 1000)).length
  ∧ (∀ r ∈ c7Store, stuckRow 900 1000 r = true →
      (release_stuck_processing 900 1000 c7Store).2.find?
          (fun x => x.domain == r.domain)
        = some { r with status := "READY", updated_at := 1000 })
  ∧ (∀ r ∈ c7Store, stuckRow 900 1000 r = false →
      (release_stuck_processing 900 1000 c7Store).2.find?
          (fun x => x.domain == r.domain)
        = some r)
  ∧ (∀ r : RawScrape, stuckRow 900 1000 r = true ↔
      (r.status = "PROCESSING" ∧ r.updated_at < 1000 - 900)) :=
  C7_release_stuck_exact 900 1000 c7Store (by decide)

/-- C9: when the claim call hands the worker one row and the fetch/extract
pipeline raises an arbitrary exception on it, the worker step returns
normally with count 1 (the exception is caught, never escaping the loop),
the task is reported FAILED, and the stored error message is the exception
message truncated to at most 500 characters. -/
theorem C9_worker_step_catches_pipeline_exception
    (extract : RawScrape → ExtractResult)
    (persist : String → ExtractedData → Option String)
    (now : Nat) (wid : String) (s : Store) (ms : List Metric) (r : RawScrape)
    (msg : String)
    (hp : (claim_pending_raw wid 1 now s).1 = [r])
    (hex : extract r = ExtractResult.exn msg) :
    process_once extract persist now wid s ms
      = (update_raw_status r.domain "FAILED" now (claim_pending_raw wid 1 now s).2,
         ms ++ [{ domain := r.domain, success := false,
                  error_msg := some (truncate500 msg) }],
         1)
  ∧ statusOf (process_once extract persist now wid s ms).1 r.domain = some "FAILED"
  ∧ (truncate500 msg).length ≤ 500 := by
  have hrow : processRow extract persist now r (claim_pending_raw wid 1 now s).2
      = (update_raw_status r.domain "FAILED" now (claim_pending_raw wid 1 now s).2,
         { domain := r.domain, success := false,
           error_msg := some (truncate500 msg) }) := by
    rw [processRow, processRowAttempt, hex]
  have heval := process_once_single extract persist now wid s ms r hp
  rw [hrow] at heval
  refine ⟨heval, ?_, ?_⟩
  · rw [heval]
    exact statusOf_update_after_claim (claim_fst_mem (hp ▸ List.mem_singleton_self r)).1
      "FAILED" now
  · show (msg.data.take 500).length ≤ 500
    rw [List.length_take]
    exact Nat.min_le_left 500 msg.data.length

/-- C9 witness: the worker step on the concrete one-task store with an
extraction that raises; the task ends FAILED with the truncated message and
the step returns count 1. -/
theorem C9_worker_step_catches_pipeline_exception_witness :
    process_once (fun _ => ExtractResult.exn "boom") (fun _ _ => none) 1 "w" c5Store []
      = (update_raw_status c5Row.domain "FAILED" 1 (claim_pending_raw "w" 1 1 c5Store).2,
         [] ++ [{ domain := c5Row.domain, success := false,
                  error_msg := some (truncate500 "boom") }],
         1)
  ∧ statusOf (process_once (fun _ => ExtractResult.exn "boom") (fun _ _ => none) 1 "w"
        c5Store []).1 c5Row.domain = some "FAILED"
  ∧ (truncate500 "boom").length ≤ 500 :=
  C9_worker_step_catches_pipeline_exception (fun _ => ExtractResult.exn "boom")
    (fun _ _ => none) 1 "w" c5Store [] c5Row "boom" (by decide) rfl

/-- C5 counterexample: with a successful extraction and a Persistence Sink
that raises, the worker step marks the task FAILED, not DONE — the persist
failure does move the task to FAILED, contradicting the claim. -/
theorem C5_counterexample :
    statusOf (process_once (fun _ => ExtractResult.ok "profile")
        (fun _ _ => some "disk full") 1 "w" c5Store []).1 "a.com" = some "FAILED"
  ∧ ¬ statusOf (process_once (fun _ => ExtractResult.ok "profile")
        (fun _ _ => some "disk full") 1 "w" c5Store []).1 "a.com" = some "DONE" := by
  decide

/-- C5 (amended): a Persistence Sink failure after a successful extraction
is treated like any pipeline exception: the worker step marks the task
FAILED and records the truncated error (the extracted result is not
retained as DONE); in the approval path, accepting an entry whose save
raises pops the entry, increments the job's failed count, leaves the
completed count and the approved data unchanged, and persists nothing. -/
theorem C5_persist_failure_fails_task :
    (∀ (extract : RawScrape → ExtractResult)
       (persist : String → ExtractedData → Option String)
       (now : Nat) (wid : String) (s : Store) (ms : List Metric) (r : RawScrape)
       (p : ExtractedData) (e : String),
       (claim_pending_raw wid 1 now s).1 = [r] →
       extract r = ExtractResult.ok p →
       persist r.domain p = some e →
       statusOf (process_once extract persist now wid s ms).1 r.domain = some "FAILED"
     ∧ (process_once extract persist now wid s ms).2.1
         = ms ++ [{ domain := r.domain, success := false,
                    error_msg := some (truncate500 e) }])
  ∧ (∀ (st : SeqState) (dom : String) (data : ExtractedData),
       dictLookup st.job.pending_approvals dom = some data →
       (accept_extracted dom true false st).job.failed = st.job.failed + 1
     ∧ (accept_extracted dom true false st).job.completed = st.job.completed
     ∧ (accept_extracted dom true false st).job.approved_data = st.job.approved_data
     ∧ (accept_extracted dom true false st).sink = st.sink) := by
  constructor
  · intro extract persist now wid s ms r p e hp hex hpe
    have hrow : processRow extract persist now r (claim_pending_raw wid 1 now s).2
        = (update_raw_status r.domain "FAILED" now (claim_pending_raw wid 1 now s).2,
           { domain := r.domain, success := false,
             error_msg := some (truncate500 e) }) := by
      rw [processRow, processRowAttempt, hex]
      simp only [hpe]
    have heval := process_once_single extract persist now wid s ms r hp
    rw [hrow] at heval
    constructor
    · rw [heval]
      exact statusOf_update_after_claim (claim_fst_mem (hp ▸ List.mem_singleton_self r)).1
        "FAILED" now
    · rw [heval]
  · intro st dom data hlk
    have hshape : accept_extracted dom true false st
        = completionCheck (acceptFailState dom st) := by
      have h1 := accept_extracted_shape hlk true false
      simpa [resolveBranch] using h1
    obtain ⟨-, hc, hf, -, ha, -, hs⟩ := completionCheck_preserves (acceptFailState dom st)
    exact ⟨by rw [hshape, hf]; rfl, by rw [hshape, hc]; rfl, by rw [hshape, ha]; rfl,
      by rw [hshape, hs]; rfl⟩

/-- C5 witness: the amended persist-failure behavior evaluated on the
concrete one-task store and on the concrete one-entry approval state. -/
theorem C5_persist_failure_fails_task_witness :
    (statusOf (process_once (fun _ => ExtractResult.ok "profile")
          (fun _ _ => some "disk full") 1 "w" c5Store []).1 c5Row.domain = some "FAILED"
     ∧ (process_once (fun _ => ExtractResult.ok "profile")
          (fun _ _ => some "disk full") 1 "w" c5Store []).2.1
         = [] ++ [{ domain := c5Row.domain, success := false,
                    error_msg := some (truncate500 "disk full") }])
  ∧ ((accept_extracted "a.com" true false c4State).job.failed = c4State.job.failed + 1
     ∧ (accept_extracted "a.com" true false c4State).job.completed
         = c4State.job.completed
     ∧ (accept_extracted "a.com" true false c4State).job.approved_data
         = c4State.job.approved_data
     ∧ (accept_extracted "a.com" true false c4State).sink = c4State.sink) :=
  ⟨C5_persist_failure_fails_task.1 (fun _ => ExtractResult.ok "profile")
     (fun _ _ => some "disk full") 1 "w" c5Store [] c5Row "profile" "disk full"
     (by decide) rfl rfl,
   C5_persist_failure_fails_task.2 c4State "a.com" "data" (by decide)⟩

/-- C3: along any history of result-submission events (Redis path) and any
history of approval-resolution events (sequential path, after the
background run), one further event never lowers the job status in the rank
order pending/queued < processing < waiting_approval < completed, and a job
that reports completed stays completed. -/
theorem C3_status_monotone :
    (∀ (domains : List String) (pre : List (String × Bool)) (e : String × Bool),
       statusRank (runSubmissions domains pre).status
         ≤ statusRank (submit_result e.2 (runSubmissions domains pre)).status
     ∧ ((runSubmissions domains pre).status = "completed" →
         (submit_result e.2 (runSubmissions domains pre)).status = "completed"))
  ∧ (∀ (outcomes : List (String × Option ExtractedData))
       (resolves : List ResolveEvent) (ev : ResolveEvent),
       statusRank (resolves.foldl applyResolve (initSeqState outcomes)).job.status
         ≤ statusRank (applyResolve
             (resolves.foldl applyResolve (initSeqState outcomes)) ev).job.status
     ∧ ((resolves.foldl applyResolve (initSeqState outcomes)).job.status
           = "completed" →
         (applyResolve (resolves.foldl applyResolve (initSeqState outcomes))
             ev).job.status = "completed")) := by
  constructor
  · intro domains pre e
    exact submit_result_mono (redisInv_run domains pre) e.2
  · intro outcomes resolves ev
    exact applyResolve_mono
      (seqInv_foldl resolves (initSeqState outcomes) (seqInv_init outcomes)) ev

/-- C3 witness: a one-domain Redis job after one successful submission is
completed and a further submission keeps it completed; a one-domain
sequential job with one resolved approval likewise. -/
theorem C3_status_monotone_witness :
    (statusRank (runSubmissions ["a.com"] [("a.com", true)]).status
       ≤ statusRank (submit_result true
           (runSubmissions ["a.com"] [("a.com", true)])).status
     ∧ ((runSubmissions ["a.com"] [("a.com", true)]).status = "completed" →
         (submit_result true (runSubmissions ["a.com"] [("a.com", true)])).status
           = "completed"))
  ∧ (statusRank ([(("a.com", true, true) : ResolveEvent)].foldl applyResolve
        (initSeqState [("a.com", some "data")])).job.status
       ≤ statusRank (applyResolve
           ([(("a.com", true, true) : ResolveEvent)].foldl applyResolve
             (initSeqState [("a.com", some "data")])) ("a.com", true, true)).job.status
     ∧ (([(("a.com", true, true) : ResolveEvent)].foldl applyResolve
          (initSeqState [("a.com", some "data")])).job.status = "completed" →
         (applyResolve ([(("a.com", true, true) : ResolveEvent)].foldl applyResolve
             (initSeqState [("a.com", some "data")]))
           ("a.com", true, true)).job.status = "completed")) :=
  ⟨C3_status_monotone.1 ["a.com"] [("a.com", true)] ("a.com", true),
   C3_status_monotone.2 [("a.com", some "data")] [("a.com", true, true)]
     ("a.com", true, true)⟩

/-- C4 counterexample: rejecting the single pending entry increments the
job's completed count (to 1) and leaves the failed count at 0 — not the
other way round as the claim states; nothing is persisted. -/
theorem C4_counterexample :
    (accept_extracted "a.com" false true c4State).job.completed = 1
  ∧ (accept_extracted "a.com" false true c4State).job.failed = 0
  ∧ (accept_extracted "a.com" false true c4State).sink = []
  ∧ ¬ ((accept_extracted "a.com" false true c4State).job.failed = 1
       ∧ (accept_extracted "a.com" false true c4State).job.completed = 0) := by
  decide

/-- C4 (amended): resolving a pending entry with accept=false increments
the job's completed count by exactly one, leaves the failed count
unchanged, records the domain as rejected, and does not persist the result
to the sink. -/
theorem C4_reject_increments_completed (st : SeqState) (dom : String)
    (data : ExtractedData) (persistOk : Bool)
    (hlk : dictLookup st.job.pending_approvals dom = some data) :
    (accept_extracted dom false persistOk st).job.completed = st.job.completed + 1
  ∧ (accept_extracted dom false persistOk st).job.failed = st.job.failed
  ∧ (accept_extracted dom false persistOk st).sink = st.sink
  ∧ (accept_extracted dom false persistOk st).job.rejected_domains
      = st.job.rejected_domains ++ [dom] := by
  have hshape : accept_extracted dom false persistOk st
      = completionCheck (rejectState dom st) := by
    have h1 := accept_extracted_shape hlk false persistOk
    simpa [resolveBranch] using h1
  obtain ⟨-, hc, hf, -, -, hr, hs⟩ := completionCheck_preserves (rejectState dom st)
  exact ⟨by rw [hshape, hc]; rfl, by rw [hshape, hf]; rfl, by rw [hshape, hs]; rfl,
    by rw [hshape, hr]; rfl⟩

/-- C4 witness: the amended rejection behavior on the concrete one-entry
approval state. -/
theorem C4_reject_increments_completed_witness :
    (accept_extracted "a.com" false true c4State).job.completed
        = c4State.job.completed + 1
  ∧ (accept_extracted "a.com" false true c4State).job.failed = c4State.job.failed
  ∧ (accept_extracted "a.com" false true c4State).sink = c4State.sink
  ∧ (accept_extracted "a.com" false true c4State).job.rejected_domains
      = c4State.job.rejected_domains ++ ["a.com"] :=
  C4_reject_increments_completed c4State "a.com" "data" true (by decide)

/-- C6 counterexample: a job whose only task fails ends the background run
with every task terminal and no pending approval entry, yet its status is
waiting_approval, not completed. -/
theorem C6_counterexample :
    (process_domains_background [("a.com", none)]).status = "waiting_approval"
  ∧ (process_domains_background [("a.com", none)]).pending_approvals = []
  ∧ (process_domains_background [("a.com", none)]).failed
      = (process_domains_background [("a.com", none)]).total
  ∧ ¬ (process_domains_background [("a.com", none)]).status = "completed" := by
  decide

/-- C6 (amended): the background run always ends with status
waiting_approval, even when no approval entry was ever created; the status
becomes completed only through an approval-resolution event, and such an
event (on a waiting job with the key pending) yields completed exactly when
afterwards no entry remains pending and completed + failed has reached the
total. -/
theorem C6_completed_only_after_resolution :
    (∀ outcomes : List (String × Option ExtractedData),
       (process_domains_background outcomes).status = "waiting_approval")
  ∧ (∀ (st : SeqState) (dom : String) (data : ExtractedData)
       (accept persistOk : Bool),
       dictLookup st.job.pending_approvals dom = some data →
       st.job.status = "waiting_approval" →
       ((accept_extracted dom accept persistOk st).job.status = "completed" ↔
         ((accept_extracted dom accept persistOk st).job.pending_approvals.isEmpty
             = true
          ∧ (accept_extracted dom accept persistOk st).job.total
              ≤ (accept_extracted dom accept persistOk st).job.completed
                + (accept_extracted dom accept persistOk st).job.failed))) := by
  constructor
  · exact bg_status
  · intro st dom data accept persistOk hlk hst
    rw [accept_extracted_shape hlk]
    have hne : (resolveBranch dom data accept persistOk st).job.status
        ≠ "completed" := by
      rw [resolve_branch_status dom data st accept persistOk, hst]
      decide
    obtain ⟨ht, hc, hf, hp, -, -, -⟩ :=
      completionCheck_preserves (resolveBranch dom data accept persistOk st)
    rw [ht, hc, hf, hp]
    exact completionCheck_status_iff _ hne

/-- C6 witness: resolving the single pending entry of the concrete
one-entry job; the iff evaluates with both sides true and the job reaches
completed. -/
theorem C6_completed_only_after_resolution_witness :
    (process_domains_background [("a.com", none)]).status = "waiting_approval"
  ∧ ((accept_extracted "a.com" true true c4State).job.status = "completed" ↔
      ((accept_extracted "a.com" true true c4State).job.pending_approvals.isEmpty
          = true
       ∧ (accept_extracted "a.com" true true c4State).job.total
           ≤ (accept_extracted "a.com" true true c4State).job.completed
             + (accept_extracted "a.com" true true c4State).job.failed)) :=
  ⟨C6_completed_only_after_resolution.1 [("a.com", none)],
   C6_completed_only_after_resolution.2 c4State "a.com" "data" true true
     (by decide) rfl⟩

/-- C8 counterexample: submitting a result twice for the same task key of a
one-key Redis job drives completed + failed to 2, exceeding the job's one
task key. -/
theorem C8_counterexample :
    (runSubmissions ["a.com"] [("a.com", true), ("a.com", true)]).completed
      + (runSubmissions ["a.com"] [("a.com", true), ("a.com", true)]).failed = 2
  ∧ (runSubmissions ["a.com"] [("a.com", true), ("a.com", true)]).total = 1
  ∧ ¬ ((runSubmissions ["a.com"] [("a.com", true), ("a.com", true)]).completed
        + (runSubmissions ["a.com"] [("a.com", true), ("a.com", true)]).failed
      ≤ (runSubmissions ["a.com"] [("a.com", true), ("a.com", true)]).total) := by
  decide

/-- C8 (amended): the counters stay bounded by the number of task keys when
each key receives at most one result submission (Redis path, where a
repeated submission would overshoot), and unconditionally — for every
sequence of approval resolutions, repeated or not — on the sequential
path. -/
theorem C8_counters_bounded :
    (∀ (domains : List String) (subs : List (String × Bool)),
       (subs.map Prod.fst).Nodup →
       (∀ k ∈ subs.map Prod.fst, k ∈ domains) →
       (runSubmissions domains subs).completed
         + (runSubmissions domains subs).failed
         ≤ (runSubmissions domains subs).total)
  ∧ (∀ (outcomes : List (String × Option ExtractedData))
       (resolves : List ResolveEvent),
       (resolves.foldl applyResolve (initSeqState outcomes)).job.completed
         + (resolves.foldl applyResolve (initSeqState outcomes)).job.failed
         ≤ (resolves.foldl applyResolve (initSeqState outcomes)).job.total) := by
  constructor
  · intro domains subs hnd hsub
    obtain ⟨h1, h2⟩ := runSubmissions_counters domains subs
    rw [h1, h2]
    have hlen : (subs.map Prod.fst).length ≤ domains.length :=
      List.Subperm.length_le (hnd.subperm hsub)
    simpa using hlen
  · intro outcomes resolves
    have h := seqCountInv_foldl resolves (initSeqState outcomes)
      (seqCountInv_init outcomes)
    rw [seqCountInv] at h
    omega

/-- C8 witness: a two-key job with one submission per key stays within
bounds; the sequential bound evaluated on a one-domain job with one
resolution. -/
theorem C8_counters_bounded_witness :
    ((runSubmissions ["a.com", "b.com"] [("a.com", true), ("b.com", false)]).completed
      + (runSubmissions ["a.com", "b.com"]
          [("a.com", true), ("b.com", false)]).failed
      ≤ (runSubmissions ["a.com", "b.com"] [("a.com", true), ("b.com", false)]).total)
  ∧ (([(("a.com", true, true) : ResolveEvent)].foldl applyResolve
        (initSeqState [("a.com", some "data")])).job.completed
      + ([(("a.com", true, true) : ResolveEvent)].foldl applyResolve
          (initSeqState [("a.com", some "data")])).job.failed
      ≤ ([(("a.com", true, true) : ResolveEvent)].foldl applyResolve
          (initSeqState [("a.com", some "data")])).job.total) :=
  ⟨C8_counters_bounded.1 ["a.com", "b.com"] [("a.com", true), ("b.com", false)]
     (by decide) (by decide),
   C8_counters_bounded.2 [("a.com", some "data")] [("a.com", true, true)]⟩

end Scraper
